import Mathlib

/-!
Verification development for the timesheet-gen core: the git-history →
timesheet derivation engine (date_parser / timesheet modules) and the
configuration merge engine (config / client_repositories / file_reader /
help_prompt modules), shallowly embedded from the Rust sources.

Numeric conventions: Rust `f64` hours are modelled as `ℚ` (the only
operations performed on them are `8.0 / k` for small integer `k`,
comparison and copying); `u32`/`i32` are modelled as `ℕ`/`ℤ` (no
arithmetic near the overflow boundary occurs); `HashMap`s keyed by year
and month strings are modelled as association lists keyed by the numeric
year/month (the string conversion is injective on these keys), with
first-match lookup; `HashSet<u32>` day sets are modelled as `List ℕ`
consumed only through membership, exactly as the source consumes them.
Fallible paths (`process::exit`, `unwrap` panics, out-of-bounds `Vec`
indexing) are modelled with `Except`.
-/

namespace TimesheetGen

/-! ## Calendar arithmetic (model of the `chrono` collaborator)

The source computes month lengths with `chrono::NaiveDate` subtraction
and weekday flags with `chrono`'s `%u` format (ISO weekday, Mon = 1 ..
Sun = 7).  `chrono` implements the proleptic Gregorian calendar; we model
it with the standard civil-calendar day-number function (days relative to
1970-01-01, negative before). -/

/-- Day number of a proleptic-Gregorian civil date, with 1970-01-01 ↦ 0.
Models the date arithmetic `chrono::NaiveDate` performs. -/
def daysFromCivil (y : ℤ) (m d : ℕ) : ℤ :=
  let yy : ℤ := if m ≤ 2 then y - 1 else y
  let era : ℤ := yy / 400
  let yoe : ℤ := yy - era * 400
  let mp : ℤ := if m ≤ 2 then (m : ℤ) + 9 else (m : ℤ) - 3
  let doy : ℤ := (153 * mp + 2) / 5 + ((d : ℤ) - 1)
  let doe : ℤ := yoe * 365 + yoe / 4 - yoe / 100 + doy
  era * 146097 + doe - 719468

/-- Gregorian leap-year test (reference predicate, textbook form). -/
def isLeapYear (y : ℤ) : Bool :=
  (y % 4 == 0 && y % 100 != 0) || y % 400 == 0

/-- Textbook month length, used as the specification-side reference for
the number of calendar days of a (year, month). -/
def daysInMonthSpec (y : ℤ) (m : ℕ) : ℕ :=
  if m = 2 then (if isLeapYear y then 29 else 28)
  else if m = 4 ∨ m = 6 ∨ m = 9 ∨ m = 11 then 30 else 31

/-- Embeds `get_days_from_month` (utils/date/date_parser.rs and utils.rs):
the signed duration in days from the first of the month to the first of
the following month (rolling December over to January of the next year). -/
def getDaysFromMonth (y : ℤ) (m : ℕ) : ℕ :=
  (daysFromCivil (if m = 12 then y + 1 else y) (if m = 12 then 1 else m + 1) 1 -
    daysFromCivil y m 1).toNat

/-- Embeds `is_weekend` (date_parser modules): chrono's `%u` ISO weekday
(Mon = 1 .. Sun = 7) of the civil date; 1970-01-01 was a Thursday (4). -/
def weekdayISO (y : ℤ) (m d : ℕ) : ℤ :=
  (daysFromCivil y m d + 3) % 7 + 1

/-- Embeds the `matches!(.., 6 | 7)` weekend test of `is_weekend`. -/
def isWeekendDay (y : ℤ) (m d : ℕ) : Bool :=
  weekdayISO y m d == 6 || weekdayISO y m d == 7

/-! ## Data model of the derivation engine

Rust shapes: a day entry is a `serde_json::Map` that the engine always
populates with the three keys `weekend`, `hours`, `user_edited`
(`create_single_day_object` / `set_day_map`); we model it as a structure
with those three fields.  `TimesheetYears` is year → month → list of day
entries; `GitLogDates` is year → month → set of worked days. -/

structure DayEntry where
  weekend : Bool
  hours : ℚ
  userEdited : Bool
deriving DecidableEq

/-- One month of day entries (`Vec<Map<String, Value>>` in the source). -/
abbrev MonthSheet := List DayEntry

/-- Model of `TimesheetYears` (`HashMap<String, HashMap<String, Vec<..>>>`). -/
abbrev TimesheetYears := List (ℤ × List (ℕ × MonthSheet))

/-- Model of `GitLogDates` (`HashMap<i32, HashMap<u32, HashSet<u32>>>`). -/
abbrev GitLogDates := List (ℤ × List (ℕ × List ℕ))

/-- First-match association-list lookup, modelling `HashMap::get` (keys
are unique in every map the engine builds). -/
def lookupKey {α β : Type} [BEq α] (l : List (α × β)) (k : α) : Option β :=
  (l.find? (fun p => p.1 == k)).map Prod.snd

/-- Error conditions of the derivation engine: `process::exit(DATAERR)`
on a missing year/month key, a Rust `Vec` out-of-bounds panic, and the
(unreachable, see below) "No dates parsed from git log" exit. -/
inductive DataErr where
  | yearNotFound
  | monthNotFound
  | indexPanic
  | noHistory
deriving DecidableEq

/-! ## CalendarAllocator (date_parser.rs / utils/date/date_parser.rs) -/

/-- Embeds `return_worked_hours_from_worked_days`: the frequency is
1 + the number of adjacent repositories' day sets containing `day`
(the source maps each set to `set.get(day)`, keeps the `Some`s and takes
the length); a worked day earns `8.0 / frequency`, otherwise 0. -/
def returnWorkedHoursFromWorkedDays (workedDays : List ℕ) (day : ℕ)
    (adjacentDaysInMonth : List (List ℕ)) : ℚ :=
  let frequencyOfDayWorkedInAdjacentTimesheets : ℚ :=
    ((adjacentDaysInMonth.filter (fun month => month.contains day)).length + 1 : ℕ)
  if workedDays.contains day then 8 / frequencyOfDayWorkedInAdjacentTimesheets
  else 0

/-- Embeds `Timesheet::get_timesheet_entry` (timesheet.rs; the method the
`Repository` struct carries under the same name): year lookup
(`ok_or("Passed year not found..")`), month lookup, then an unguarded
`Vec` index (panic when out of range).  The source then reads one field
of the entry map; we return the whole entry. -/
def getTimesheetEntry (ts : TimesheetYears) (y : ℤ) (m : ℕ) (day : ℕ) :
    Except DataErr DayEntry :=
  match lookupKey ts y with
  | none => .error .yearNotFound
  | some months =>
    match lookupKey months m with
    | none => .error .monthNotFound
    | some entries =>
      match entries.get? day with
      | none => .error .indexPanic
      | some e => .ok e

/-- One iteration of the `for day in 1..date_tuple.2 + 1` loop of
`parse_hours_from_date` (date_parser.rs): weekend flag from the calendar,
allocated hours from `return_worked_hours_from_worked_days`; with no
prior timesheet the computed entry is emitted; with a prior timesheet the
prior entry at `day_index = day - 1` is consulted and, exactly when its
`user_edited` flag is set, its hours are copied verbatim. -/
def parseOneDay (y : ℤ) (m : ℕ) (workedDays : List ℕ)
    (timesheet : Option TimesheetYears) (adjacentDaysInMonth : List (List ℕ))
    (day : ℕ) : Except DataErr DayEntry :=
  let isWeekend : Bool := isWeekendDay y m day
  let hoursWorked := returnWorkedHoursFromWorkedDays workedDays day adjacentDaysInMonth
  match timesheet with
  | none => .ok ⟨isWeekend, hoursWorked, false⟩
  | some ts =>
    match getTimesheetEntry ts y m (day - 1) with
    | .error e => .error e
    | .ok prior =>
      if prior.userEdited = false then .ok ⟨isWeekend, hoursWorked, false⟩
      else .ok ⟨isWeekend, prior.hours, true⟩

/-- The day loop of `parse_hours_from_date`, emitting entries for the
days `start, start+1, …` (`count` of them) in order. -/
def parseDaysFrom (y : ℤ) (m : ℕ) (workedDays : List ℕ)
    (timesheet : Option TimesheetYears) (adjacentDaysInMonth : List (List ℕ))
    (start : ℕ) : ℕ → Except DataErr MonthSheet
  | 0 => .ok []
  | Nat.succ k =>
    match parseOneDay y m workedDays timesheet adjacentDaysInMonth start with
    | .error e => .error e
    | .ok entry =>
      match parseDaysFrom y m workedDays timesheet adjacentDaysInMonth (start + 1) k with
      | .error e => .error e
      | .ok rest => .ok (entry :: rest)

/-- Embeds `parse_hours_from_date`: one entry per day from 1 to the
passed number of days in the month. -/
def parseHoursFromDate (y : ℤ) (m daysInMonth : ℕ) (workedDays : List ℕ)
    (timesheet : Option TimesheetYears) (adjacentDaysInMonth : List (List ℕ)) :
    Except DataErr MonthSheet :=
  parseDaysFrom y m workedDays timesheet adjacentDaysInMonth 1 daysInMonth

/-- Embeds `get_adjacent_git_log_days_for_month`: for every adjacent
repository whose index contains this year and month, collect that
month's day set, in order. -/
def getAdjacentGitLogDaysForMonth (adjacentGitLogDays : List GitLogDates)
    (y : ℤ) (m : ℕ) : List (List ℕ) :=
  adjacentGitLogDays.filterMap
    (fun logDay => (lookupKey logDay y).bind (fun months => lookupKey months m))

/-! ## TimesheetAssembler (`get_timesheet_map_from_date_hashmap`)

The source iterates the `HashMap` and builds the output map pairwise;
worked-day sets are sorted into a `Vec` before the call, which the
allocator consumes only through `contains`, so the sort is omitted. -/

/-- Inner month loop of `get_timesheet_map_from_date_hashmap`. -/
def buildMonths (y : ℤ) (timesheet : Option TimesheetYears)
    (adjacentGitLogDates : List GitLogDates) :
    List (ℕ × List ℕ) → Except DataErr (List (ℕ × MonthSheet))
  | [] => .ok []
  | (m, days) :: rest =>
    match parseHoursFromDate y m (getDaysFromMonth y m) days timesheet
        (getAdjacentGitLogDaysForMonth adjacentGitLogDates y m) with
    | .error e => .error e
    | .ok workedHoursForMonth =>
      match buildMonths y timesheet adjacentGitLogDates rest with
      | .error e => .error e
      | .ok rest2 => .ok ((m, workedHoursForMonth) :: rest2)

/-- Embeds `get_timesheet_map_from_date_hashmap`: drives the allocator
across every (year, month) of the repository's worked-day index, handing
it the adjacent repositories' sets for the same key. -/
def getTimesheetMapFromDateHashmap (gitLogDates : GitLogDates)
    (timesheet : Option TimesheetYears) (adjacentGitLogDates : List GitLogDates) :
    Except DataErr TimesheetYears :=
  match gitLogDates with
  | [] => .ok []
  | (y, months) :: rest =>
    match buildMonths y timesheet adjacentGitLogDates months with
    | .error e => .error e
    | .ok monthMap =>
      match getTimesheetMapFromDateHashmap rest timesheet adjacentGitLogDates with
      | .error e => .error e
      | .ok rest2 => .ok ((y, monthMap) :: rest2)

/-! ## DateBucketBuilder (`parse_git_log_dates_from_git_history`)

The regex scan over the raw log text is an external collaborator
(`regex` crate); we take its output — the list of captured
(year, month, day) triples, in text order — as the input and embed the
fold that builds the `GitLogDates` map from it. -/

/-- Inserting a day into a month's `HashSet` (duplicates collapse). -/
def insertDaySet (days : List ℕ) (d : ℕ) : List ℕ :=
  if days.contains d then days else days ++ [d]

/-- The `year.entry(month).and_modify(..).or_insert_with_key(..)` step. -/
def insertMonthDay (months : List (ℕ × List ℕ)) (m d : ℕ) : List (ℕ × List ℕ) :=
  match months with
  | [] => [(m, [d])]
  | (m0, ds) :: rest =>
    if m0 = m then (m0, insertDaySet ds d) :: rest
    else (m0, ds) :: insertMonthDay rest m d

/-- The `year_month_map.entry(year).and_modify(..).or_insert_with_key(..)`
step. -/
def insertYearMonthDay (gld : GitLogDates) (y : ℤ) (m d : ℕ) : GitLogDates :=
  match gld with
  | [] => [(y, [(m, [d])])]
  | (y0, months) :: rest =>
    if y0 = y then (y0, insertMonthDay months m d) :: rest
    else (y0, months) :: insertYearMonthDay rest y m d

/-- The capture-iteration fold of `parse_git_log_dates_from_git_history`:
every regex match inserts its calendar day into the nested map. -/
def buildGitLogDates (dateMatches : List (ℤ × ℕ × ℕ)) : GitLogDates :=
  dateMatches.foldl (fun acc t => insertYearMonthDay acc t.1 t.2.1 t.2.2) []

/-- The repository fields touched by timesheet generation
(timesheet.rs `Timesheet`, later renamed `Repository`). -/
structure RepositoryState where
  gitLogDates : Option GitLogDates
  timesheet : Option TimesheetYears
deriving DecidableEq

/-- Embeds `parse_git_log_dates_from_git_history` (timesheet.rs): build
the worked-day index from the regex matches, store it with
`set_git_log_dates` (always `Some`), then match on the stored value —
`Some` builds and stores the timesheet, `None` would exit with
"No dates parsed from git log" (DATAERR).  The adjacent sets are empty
here, as in the source call site (a lone repository). -/
def parseGitLogDatesFromGitHistory (repo : RepositoryState)
    (dateMatches : List (ℤ × ℕ × ℕ)) : Except DataErr RepositoryState :=
  let repo1 : RepositoryState := { repo with gitLogDates := some (buildGitLogDates dateMatches) }
  match repo1.gitLogDates with
  | none => .error .noHistory
  | some dateMap =>
    match getTimesheetMapFromDateHashmap dateMap repo1.timesheet [] with
    | .error e => .error e
    | .ok ts => .ok { repo1 with timesheet := some ts }

/-! ## Claim theorems: derivation engine -/

/-- C1 witness: the three-repository overlap scenario of the source
tests, February 2021, sets {1,2,3} with adjacent {2,3,4} and {3,4,5};
day 3 is in all three sets, so it earns 8/3 hours. -/
def c1Gld : GitLogDates := [(2021, [(2, [1, 2, 3])])]

/-- Adjacent repositories' worked-day indexes for the C1 witness. -/
def c1Adj : List GitLogDates := [[(2021, [(2, [2, 3, 4])])], [(2021, [(2, [3, 4, 5])])]]

/-- The timesheet map the assembler produces on the C1 witness input. -/
def c1Out : TimesheetYears := ((getTimesheetMapFromDateHashmap c1Gld none c1Adj).toOption).getD []

/-- The February 2021 month map of the C1 witness output. -/
def c1MonthMap : List (ℕ × MonthSheet) := (lookupKey c1Out 2021).getD []

/-- The February 2021 sheet of the C1 witness output. -/
def c1Sheet : MonthSheet := (lookupKey c1MonthMap 2).getD []

/-- C2 witness prior sheet: a February 2021 sheet whose 28 entries are
all user-edited with 5 hours. -/
def c2Prior : TimesheetYears := [(2021, [(2, List.replicate 28 ⟨false, 5, true⟩)])]

/-- The timesheet map recomputation produces on the C2 witness input. -/
def c2Out : TimesheetYears :=
  ((getTimesheetMapFromDateHashmap c1Gld (some c2Prior) c1Adj).toOption).getD []

/-- The February 2021 month map of the C2 witness output. -/
def c2MonthMap : List (ℕ × MonthSheet) := (lookupKey c2Out 2021).getD []

/-- The February 2021 sheet of the C2 witness output. -/
def c2Sheet : MonthSheet := (lookupKey c2MonthMap 2).getD []

/-! ## Data model of the merge engine (client_repositories.rs, config.rs)

`Repository`'s `namespace` field is spelled `namespace_` because
`namespace` is a Lean keyword.  String fields the cited functions never
read are omitted; `Option` is kept exactly where the Rust struct has it. -/

structure Client where
  id : String
  clientName : String
  clientAddress : String
  clientContactPerson : String
deriving DecidableEq

structure User where
  id : String
  name : String
  email : String
  isAlias : Bool
deriving DecidableEq

structure Approver where
  approversName : Option String
  approversEmail : Option String
deriving DecidableEq

structure Repository where
  id : Option String
  namespace_ : Option String
  name : Option String
  email : Option String
  projectNumber : Option String
  gitLogDates : Option GitLogDates
  timesheet : Option TimesheetYears
deriving DecidableEq

structure ClientRepositories where
  client : Option Client
  user : Option User
  repositories : Option (List Repository)
  requiresApproval : Bool
  userSignature : Option String
  approverSignature : Option String
  approver : Option Approver
deriving DecidableEq

/-- Embeds `ClientRepositories::get_client_id`; the source `unwrap`s the
client, which every document entry the program writes carries, so the
missing-client panic is modelled by the empty string. -/
def getClientId (cr : ClientRepositories) : String :=
  (cr.client.map Client.id).getD ""

/-- Embeds `ClientRepositories::get_client_name` (same `unwrap` note). -/
def getClientName (cr : ClientRepositories) : String :=
  (cr.client.map Client.clientName).getD ""

/-! ## ConfigDocumentMerger -/

/-- Embeds `Config::update_client_repositories` (config.rs): walk the
deserialized document and push, for each entry, either the in-memory
record (when the client ids are equal) or the existing entry — the
caller always passes an empty accumulator, so the loop is a map.  Note
there is no append branch: a record whose client id matches no entry is
simply not added. -/
def updateClientRepositories (deserializedConfig : List ClientRepositories)
    (oldClientRepos : ClientRepositories) : List ClientRepositories :=
  deserializedConfig.map (fun entry =>
    if getClientId entry == getClientId oldClientRepos then oldClientRepos else entry)

/-- Errors of `serialize_config` (utils/file/file_reader.rs):
`nothingPassed` is the "Tried to create a JSON literal but nothing was
passed" exit; `missingRepositories` models the `unwrap()`/`[0]` panic on
a record without a first repository. -/
inductive CfgErr where
  | nothingPassed
  | missingRepositories
deriving DecidableEq

/-- Embeds `serialize_config` (utils/file/file_reader.rs) up to the JSON
stringification (the returned list is the document that gets written).
With no existing document, the record alone is the document; with a
document and no record, the document is written unchanged; with both, a
case-SENSITIVE client-name match rewrites every matched entry with the
record's client/user/approver/requires_approval and sets its repository
list to the existing list with the record's first repository appended
(`vec![existing, vec![repository]].concat()`); a miss pushes the whole
record onto the end.  An entry whose `repositories` is `None` would make
the source panic in the closure; the model reads it as the empty list
(the program never writes such an entry). -/
def serializeConfig (clientRepositories : Option ClientRepositories)
    (deserializedConfig : Option (List ClientRepositories)) :
    Except CfgErr (List ClientRepositories) :=
  match deserializedConfig with
  | none =>
    match clientRepositories with
    | none => .error .nothingPassed
    | some cr => .ok [cr]
  | some config =>
    match clientRepositories with
    | none => .ok config
    | some cr =>
      match cr.repositories with
      | none => .error .missingRepositories
      | some [] => .error .missingRepositories
      | some (repository :: _) =>
        if config.any (fun x => getClientName x == getClientName cr) then
          .ok (config.map (fun c =>
            if getClientName c == getClientName cr then
              { requiresApproval := cr.requiresApproval
                approver := cr.approver
                client := cr.client
                user := cr.user
                repositories := some ((c.repositories.getD []) ++ [repository])
                userSignature := none
                approverSignature := none }
            else c))
        else .ok (config ++ [cr])

/-- ASCII model of Rust `str::to_lowercase` (the merge engine only
compares ASCII client names and namespaces with it); Lean's own
`String.toLower` is not kernel-reducible, so the map is spelled out. -/
def lowerChar (c : Char) : Char :=
  if 65 ≤ c.toNat ∧ c.toNat ≤ 90 then Char.ofNat (c.toNat + 32) else c

/-- Lowercase every character of a string (Rust `to_lowercase`). -/
def lowerString (s : String) : String := ⟨s.data.map lowerChar⟩

/-- Embeds `ClientRepositories::remove_repository_by_namespace`
(client_repositories.rs): `retain` every repository whose namespace is
not case-insensitively equal to the target (Rust `to_lowercase`; the
namespaces in play are ASCII). -/
def removeRepositoryByNamespace (cr : ClientRepositories)
    (namespaceArg : String) : ClientRepositories :=
  { cr with repositories := cr.repositories.map (fun repos =>
      repos.filter (fun repo =>
        lowerString (repo.namespace_.getD "") != lowerString namespaceArg)) }

/-- Not-found outcomes of `prompt_for_client_repo_removal`
(interface/help_prompt.rs): "Repository not found. Nothing removed." and
"Client not found. Nothing removed.", both followed by `exit_process`. -/
inductive RemoveErr where
  | repoNotFound
  | clientNotFound
deriving DecidableEq

/-- The namespace branch of `prompt_for_client_repo_removal` after the
user confirms: walk the document, and at the FIRST client whose name
matches case-insensitively remove the namespace; when its repository
count is unchanged report not-found, otherwise return with the clients
before and after the match untouched.  A document with no matching
client falls through unchanged (`Ok(self)`). -/
def removeNamespaceFromClients :
    List ClientRepositories → String → String → Except RemoveErr (List ClientRepositories)
  | [], _, _ => .ok []
  | cr :: rest, clientArg, namespaceArg =>
    if lowerString (getClientName cr) == lowerString clientArg then
      let repoLen := (cr.repositories.getD []).length
      let cr2 := removeRepositoryByNamespace cr namespaceArg
      if repoLen != (cr2.repositories.getD []).length then .ok (cr2 :: rest)
      else .error .repoNotFound
    else
      match removeNamespaceFromClients rest clientArg namespaceArg with
      | .ok rest2 => .ok (cr :: rest2)
      | .error e => .error e

/-- Embeds `prompt_for_client_repo_removal` after confirmation: with a
namespace option, remove it under the matched client; without one,
`retain` every client whose name does not match case-insensitively and
report not-found when the document length is unchanged. -/
def promptForClientRepoRemoval (clientArg : String) (namespaceArg : Option String)
    (deserializedConfig : List ClientRepositories) :
    Except RemoveErr (List ClientRepositories) :=
  match namespaceArg with
  | some ns2 => removeNamespaceFromClients deserializedConfig clientArg ns2
  | none =>
    let newConfig := deserializedConfig.filter
      (fun cr => lowerString (getClientName cr) != lowerString clientArg)
    if deserializedConfig.length != newConfig.length then .ok newConfig
    else .error .clientNotFound

/-- Abort conditions of `check_for_client_or_repo_in_buffer` (config.rs):
`clientAbort` is the `exit(CANTCREAT)` after "The client, or client +
namespace combination you passed has not be found."; `missingNamespace`
models the `namespace.unwrap()` panic when neither a path, a namespace
nor a client name is supplied. -/
inductive LookupErr where
  | clientAbort
  | missingNamespace
deriving DecidableEq

/-- The indexed client-name loop of `check_for_client_or_repo_in_buffer`:
a case-insensitive name match overwrites the accumulator with the entry;
otherwise, reaching the LAST index exits the process — even when an
earlier entry matched, because the loop neither breaks nor returns. -/
def checkClientLoop (c : String) (total : ℕ) :
    List ClientRepositories → ℕ →
    (Option Repository × Option ClientRepositories) →
    Except LookupErr (Option Repository × Option ClientRepositories)
  | [], _, acc => .ok acc
  | cr :: rest, i, acc =>
    if lowerString (getClientName cr) == lowerString c then
      checkClientLoop c total rest (i + 1) (none, some cr)
    else if i == total - 1 then .error .clientAbort
    else checkClientLoop c total rest (i + 1) acc

/-- The namespace branch of `check_for_client_or_repo_in_buffer`: scan
every client and keep the LAST (repository, client) pair whose
repository namespace matches case-insensitively. -/
def namespaceScan (deserializedConfig : List ClientRepositories) (ns2 : String) :
    Option Repository × Option ClientRepositories :=
  deserializedConfig.foldl (fun option client =>
    match (client.repositories.getD []).find?
        (fun repository => lowerString (repository.namespace_.getD "") == lowerString ns2) with
    | some repository => (some repository, some client)
    | none => option) (none, none)

/-- Embeds `check_for_client_or_repo_in_buffer` (config.rs) for the
explicit-namespace and client-name lookup keys.  (The filesystem-path
key resolves the path to a namespace through an external git call and
then performs the same namespace lookup, so it is not modelled
separately.) -/
def checkForClientOrRepoInBuffer (deserializedConfig : List ClientRepositories)
    (repoNamespace : Option String) (clientName : Option String) :
    Except LookupErr (Option Repository × Option ClientRepositories) :=
  match clientName with
  | some c => checkClientLoop c deserializedConfig.length deserializedConfig 0 (none, none)
  | none =>
    match repoNamespace with
    | none => .error .missingNamespace
    | some ns2 => .ok (namespaceScan deserializedConfig ns2)

/-! ## Helper lemmas for the merge engine -/

instance {ε α : Type} [DecidableEq ε] [DecidableEq α] : DecidableEq (Except ε α) := fun x y =>
  match x, y with
  | .error a, .error b =>
    if h : a = b then .isTrue (by rw [h])
    else .isFalse (fun hc => h (Except.error.inj hc))
  | .error _, .ok _ => .isFalse (fun hc => Except.noConfusion hc)
  | .ok _, .error _ => .isFalse (fun hc => Except.noConfusion hc)
  | .ok a, .ok b =>
    if h : a = b then .isTrue (by rw [h])
    else .isFalse (fun hc => h (Except.ok.inj hc))

/-- The number of repositories of `cr` whose namespace equals the target
case-insensitively (the ones `remove_repository_by_namespace` drops). -/
def matchingNamespaceCount (cr : ClientRepositories) (namespaceArg : String) : ℕ :=
  ((cr.repositories.getD []).filter
    (fun r => (lowerString (r.namespace_.getD "") == lowerString namespaceArg))).length

/-! ## Concrete merge/removal scenario data -/

/-- An existing client of the configuration document. -/
def clientAlphabet : Client :=
  { id := "c1", clientName := "alphabet", clientAddress := "Spaghetti Way, USA",
    clientContactPerson := "John Smith" }

/-- The repository already stored under that client. -/
def repoAutolog : Repository :=
  { id := some "r1", namespace_ := some "autolog", name := some "Jim Jones",
    email := some "jim@jones.com", projectNumber := some "1",
    gitLogDates := none, timesheet := none }

/-- The freshly recomputed version of the same repository (only the
project number differs). -/
def repoAutologEdited : Repository := { repoAutolog with projectNumber := some "2" }

/-- The document entry for the existing client. -/
def crAlphabet : ClientRepositories :=
  { client := some clientAlphabet, user := none, repositories := some [repoAutolog],
    requiresApproval := false, userSignature := none, approverSignature := none,
    approver := none }

/-- The in-memory record carrying the single updated repository. -/
def crAlphabetUpdate : ClientRepositories :=
  { crAlphabet with repositories := some [repoAutologEdited] }

/-- A client owning two repositories whose namespaces differ only in
case. -/
def clientApple : Client :=
  { id := "c2", clientName := "apple", clientAddress := "1 Infinite Loop",
    clientContactPerson := "Tim" }

def repoFooLower : Repository :=
  { id := some "rf", namespace_ := some "foo", name := none, email := none,
    projectNumber := none, gitLogDates := none, timesheet := none }

def repoFooUpper : Repository :=
  { repoFooLower with id := some "rF", namespace_ := some "FOO" }

def crApple : ClientRepositories :=
  { client := some clientApple, user := none,
    repositories := some [repoFooLower, repoFooUpper],
    requiresApproval := false, userSignature := none, approverSignature := none,
    approver := none }

/-- A second, non-matching client used by the lookup scenario. -/
def clientGoogle : Client :=
  { id := "c3", clientName := "google", clientAddress := "Mountain View",
    clientContactPerson := "Sundar" }

def crGoogle : ClientRepositories :=
  { client := some clientGoogle, user := none, repositories := some [],
    requiresApproval := false, userSignature := none, approverSignature := none,
    approver := none }

/-! ## Claim theorems: merge engine -/

/-! ## Edit-input validators (utils.rs / utils/date/date_parser.rs) -/

/-- The day pattern of `check_for_valid_day`,
`^(3[0-1]|2[0-9]|1[0-9]|[1-9])$`, decided on the string's characters. -/
def matchesDayPattern (s : String) : Bool :=
  match s.data with
  | [c] => decide ('1' ≤ c) && decide (c ≤ '9')
  | [c1, c2] =>
    (c1 == '3' && (c2 == '0' || c2 == '1')) ||
    (c1 == '2' && c2.isDigit) ||
    (c1 == '1' && c2.isDigit)
  | _ => false

/-- The month pattern of `check_for_valid_month`, `^(1[0-2]|[1-9])$`. -/
def matchesMonthPattern (s : String) : Bool :=
  match s.data with
  | [c] => decide ('1' ≤ c) && decide (c ≤ '9')
  | [c1, c2] => c1 == '1' && (c2 == '0' || c2 == '1' || c2 == '2')
  | _ => false

/-- The year pattern of `check_for_valid_year`, `^((19|20)\d{2})$`. -/
def matchesYearPattern (s : String) : Bool :=
  match s.data with
  | [c1, c2, c3, c4] =>
    ((c1 == '1' && c2 == '9') || (c1 == '2' && c2 == '0')) &&
      c3.isDigit && c4.isDigit
  | _ => false

/-- Prop form of the year pattern, used to state exactness. -/
def yearShapeProp : List Char → Prop
  | [c1, c2, c3, c4] =>
    ((c1 = '1' ∧ c2 = '9') ∨ (c1 = '2' ∧ c2 = '0')) ∧
      c3.isDigit = true ∧ c4.isDigit = true
  | _ => False

/-- Model of Rust `str::parse::<u32>` restricted to plain digit strings
(the validators only ever parse digit strings; the optional leading
`+` Rust would accept and the u32 overflow error are not modelled). -/
def parseNatDigits (s : String) : Option ℕ :=
  if s.data ≠ [] ∧ s.data.all Char.isDigit then
    some (s.data.foldl (fun acc c => acc * 10 + (c.toNat - 48)) 0)
  else none

/-- Model of Rust `str::parse::<i32>`: an optional leading minus sign,
then digits (overflow not modelled). -/
def parseIntSigned (s : String) : Option ℤ :=
  match s.data with
  | '-' :: rest => (parseNatDigits ⟨rest⟩).map (fun n => -(n : ℤ))
  | _ => (parseNatDigits s).map (fun n => (n : ℤ))

/-- Error conditions of the edit path (`update_hours_on_month_day_entry`
and the three validators): missing/invalid options, the year/month
lookup exits, and the unguarded `Vec` index panic. -/
inductive EditErr where
  | yearMissing
  | yearInvalid
  | monthMissing
  | monthParse
  | monthInvalid
  | dayMissing
  | dayInvalid
  | dayTooLarge
  | hourMissing
  | hourParse
  | timesheetMissing
  | yearNotFound
  | monthNotFound
  | indexPanic
deriving DecidableEq

/-- Embeds `check_for_valid_year` (utils.rs / utils/date/date_parser.rs):
`None` is "Year not found", a string not matching the year pattern is
"Not a real year"; the raw string is returned unchanged. -/
def checkForValidYear (year : Option String) : Except EditErr String :=
  match year with
  | none => .error .yearMissing
  | some s => if matchesYearPattern s then .ok s else .error .yearInvalid

/-- Embeds `check_for_valid_month`: the string is `parse::<u32>`d FIRST
(so "03" becomes 3) and the month pattern is then checked against the
decimal rendering of the parsed value. -/
def checkForValidMonth (month : Option String) : Except EditErr ℕ :=
  match month with
  | none => .error .monthMissing
  | some s =>
    match parseNatDigits s with
    | none => .error .monthParse
    | some monthU32 =>
      if matchesMonthPattern (toString monthU32) then .ok monthU32
      else .error .monthInvalid

/-- Embeds `check_for_valid_day`: the RAW day string must match the day
pattern (so a zero-padded "07" is rejected before any parse), and the
parsed value must not exceed the month's day count. -/
def checkForValidDay (day : Option String) (month : ℕ) (year : ℤ) :
    Except EditErr String :=
  match day with
  | none => .error .dayMissing
  | some dayString =>
    if !(matchesDayPattern dayString) then .error .dayInvalid
    else if getDaysFromMonth year month < (parseNatDigits dayString).getD 0 then
      .error .dayTooLarge
    else .ok dayString

/-! ## The edit-single-day operation (timesheet.rs) -/

/-- Replace the value stored under the first occurrence of a key. -/
def replaceKey {α β : Type} [BEq α] : List (α × β) → α → β → List (α × β)
  | [], _, _ => []
  | (k0, v0) :: rest, k, v =>
    if k0 == k then (k0, v) :: rest else (k0, v0) :: replaceKey rest k v

/-- Embeds `Timesheet::mutate_timesheet_entry` (timesheet.rs): year and
month lookups with `ok_or` errors, then `[day].extend(entry)` — an
unguarded `Vec` index that panics when `day` is out of range.  The
`extend` overwrites all three fields of the entry map. -/
def mutateTimesheetEntry (ts : TimesheetYears) (y : ℤ) (m : ℕ) (day : ℕ)
    (hours : ℚ) (userEdited weekend : Bool) : Except EditErr TimesheetYears :=
  match lookupKey ts y with
  | none => .error .yearNotFound
  | some months =>
    match lookupKey months m with
    | none => .error .monthNotFound
    | some entries =>
      if day < entries.length then
        .ok (replaceKey ts y (replaceKey months m
          (entries.set day ⟨weekend, hours, userEdited⟩)))
      else .error .indexPanic

/-- Embeds `Timesheet::update_hours_on_month_day_entry` (timesheet.rs):
validate year, month and day (`options = [hour, day, month, year]`),
parse the hour as an i32 with NO range check, parse the day, read the
`weekend` flag of the entry at index `day` — not `day - 1` — through
`get_timesheet_entry`, and extend the entry at index `day` with the new
hours, `user_edited = 1` and the preserved weekend flag. -/
def updateHoursOnMonthDayEntry (timesheet : Option TimesheetYears)
    (options : List (Option String)) : Except EditErr TimesheetYears := do
  let yearString ← checkForValidYear (options.getD 3 none)
  let monthU32 ← checkForValidMonth (options.getD 2 none)
  let yearInt : ℤ := (parseIntSigned yearString).getD 0
  let dayString ← checkForValidDay (options.getD 1 none) monthU32 yearInt
  let hour : ℤ ← match options.getD 0 none with
    | none => .error .hourMissing
    | some hourString =>
      match parseIntSigned hourString with
      | none => .error .hourParse
      | some h => .ok h
  let day : ℕ := (parseNatDigits dayString).getD 0
  match timesheet with
  | none => .error .timesheetMissing
  | some ts =>
    let entry ← match getTimesheetEntry ts yearInt monthU32 day with
      | .error .yearNotFound => .error EditErr.yearNotFound
      | .error .monthNotFound => .error EditErr.monthNotFound
      | .error _ => .error EditErr.indexPanic
      | .ok e => .ok e
    mutateTimesheetEntry ts yearInt monthU32 day (hour : ℚ) true entry.weekend

/-- A full November 2021 month sheet as the allocator produces it for a
repository that worked day 1 only (30 entries, index 0 = day 1). -/
def nov2021Sheet : MonthSheet :=
  ((parseHoursFromDate 2021 11 (getDaysFromMonth 2021 11) [1] none []).toOption).getD []

/-- The stored timesheet holding that November sheet. -/
def nov2021Timesheet : TimesheetYears := [(2021, [(11, nov2021Sheet)])]

/-- The result of editing day 1 of that sheet to 20 hours (the
repository's own edit test uses exactly hour = 20, day = 1, month = 11,
year = 2021). -/
def editedNov : TimesheetYears :=
  ((updateHoursOnMonthDayEntry (some nov2021Timesheet)
    [some "20", some "1", some "11", some "2021"]).toOption).getD []

/-- The November sheet after that edit. -/
def editedNovSheet : MonthSheet :=
  (lookupKey ((lookupKey editedNov 2021).getD []) 11).getD []

/-! ## Claim theorems: edit path and validators -/

/-! ## Theorems -/

example : daysFromCivil 1970 1 1 = 0 := by decide

example : weekdayISO 2021 11 6 = 6 := by decide

example : isWeekendDay 2021 11 6 = true := by decide

example : isWeekendDay 2021 11 28 = true := by decide

example : isWeekendDay 2021 11 8 = false := by decide

example : isWeekendDay 2021 11 23 = false := by decide

example : getDaysFromMonth 2021 10 = 31 := by decide

example : getDaysFromMonth 1989 2 = 28 := by decide

example : getDaysFromMonth 1945 6 = 30 := by decide

example : getDaysFromMonth 2024 2 = 29 := by decide

example : getDaysFromMonth 2021 12 = 31 := by decide

/-- The chrono-difference month length agrees with the textbook Gregorian
month length for every year and every real month. -/
theorem getDaysFromMonth_eq_spec (y : ℤ) (m : ℕ) (h1 : 1 ≤ m) (h2 : m ≤ 12) :
    getDaysFromMonth y m = daysInMonthSpec y m := by
  interval_cases m <;>
  · simp only [getDaysFromMonth, daysFromCivil, daysInMonthSpec, isLeapYear]
    norm_num
    try split_ifs with hl
    all_goals try simp only [Bool.or_eq_true, Bool.and_eq_true, beq_iff_eq,
      bne_iff_ne, Bool.not_eq_true, not_or, not_and_or] at hl
    all_goals omega

/-! ## Structural lemmas about the day loop and the assembly maps -/

theorem lookupKey_cons {α β : Type} [BEq α] (k0 : α) (v0 : β)
    (rest : List (α × β)) (k : α) :
    lookupKey ((k0, v0) :: rest) k =
      if (k0 == k) = true then some v0 else lookupKey rest k := by
  by_cases h : (k0 == k) = true <;> simp [lookupKey, List.find?_cons, h]

theorem parseDaysFrom_ok_length (y : ℤ) (m : ℕ) (workedDays : List ℕ)
    (timesheet : Option TimesheetYears) (adjacent : List (List ℕ)) :
    ∀ (count start : ℕ) (l : MonthSheet),
      parseDaysFrom y m workedDays timesheet adjacent start count = .ok l →
      l.length = count := by
  intro count
  induction count with
  | zero =>
    intro start l h
    simp only [parseDaysFrom] at h
    injection h with h
    simp [← h]
  | succ k ih =>
    intro start l h
    simp only [parseDaysFrom] at h
    cases h1 : parseOneDay y m workedDays timesheet adjacent start with
    | error e => rw [h1] at h; cases h
    | ok entry =>
      rw [h1] at h
      cases h2 : parseDaysFrom y m workedDays timesheet adjacent (start + 1) k with
      | error e => rw [h2] at h; cases h
      | ok rest =>
        rw [h2] at h
        injection h with h
        subst h
        simp [ih (start + 1) rest h2]

theorem parseDaysFrom_ok_get (y : ℤ) (m : ℕ) (workedDays : List ℕ)
    (timesheet : Option TimesheetYears) (adjacent : List (List ℕ)) :
    ∀ (count start i : ℕ) (l : MonthSheet),
      parseDaysFrom y m workedDays timesheet adjacent start count = .ok l →
      i < count →
      ∃ e, parseOneDay y m workedDays timesheet adjacent (start + i) = .ok e ∧
        l.get? i = some e := by
  intro count
  induction count with
  | zero => intro start i l _ hi; omega
  | succ k ih =>
    intro start i l h hi
    simp only [parseDaysFrom] at h
    cases h1 : parseOneDay y m workedDays timesheet adjacent start with
    | error e => rw [h1] at h; cases h
    | ok entry =>
      rw [h1] at h
      cases h2 : parseDaysFrom y m workedDays timesheet adjacent (start + 1) k with
      | error e => rw [h2] at h; cases h
      | ok rest =>
        rw [h2] at h
        injection h with h
        subst h
        cases i with
        | zero => exact ⟨entry, by simpa using h1, rfl⟩
        | succ j =>
          obtain ⟨e, he, hg⟩ := ih (start + 1) j rest h2 (by omega)
          refine ⟨e, ?_, by simpa using hg⟩
          rw [show start + (j + 1) = start + 1 + j by omega]
          exact he

theorem parseDaysFrom_none_ok (y : ℤ) (m : ℕ) (workedDays : List ℕ)
    (adjacent : List (List ℕ)) :
    ∀ (count start : ℕ),
      ∃ l, parseDaysFrom y m workedDays none adjacent start count = .ok l := by
  intro count
  induction count with
  | zero => intro start; exact ⟨[], rfl⟩
  | succ k ih =>
    intro start
    obtain ⟨l, hl⟩ := ih (start + 1)
    refine ⟨⟨isWeekendDay y m start,
      returnWorkedHoursFromWorkedDays workedDays start adjacent, false⟩ :: l, ?_⟩
    simp only [parseDaysFrom, parseOneDay, hl]

theorem buildMonths_ok_lookup (y : ℤ) (timesheet : Option TimesheetYears)
    (adjacentGld : List GitLogDates) (m : ℕ) :
    ∀ (months : List (ℕ × List ℕ)) (out : List (ℕ × MonthSheet)) (ds : List ℕ),
      buildMonths y timesheet adjacentGld months = .ok out →
      lookupKey months m = some ds →
      ∃ sheet, parseHoursFromDate y m (getDaysFromMonth y m) ds timesheet
          (getAdjacentGitLogDaysForMonth adjacentGld y m) = .ok sheet ∧
        lookupKey out m = some sheet := by
  intro months
  induction months with
  | nil => intro out ds _ hm; simp [lookupKey] at hm
  | cons head rest ih =>
    obtain ⟨m0, ds0⟩ := head
    intro out ds h hm
    simp only [buildMonths] at h
    cases h1 : parseHoursFromDate y m0 (getDaysFromMonth y m0) ds0 timesheet
        (getAdjacentGitLogDaysForMonth adjacentGld y m0) with
    | error e => rw [h1] at h; cases h
    | ok sheet0 =>
      rw [h1] at h
      cases h2 : buildMonths y timesheet adjacentGld rest with
      | error e => rw [h2] at h; cases h
      | ok rest2 =>
        rw [h2] at h
        injection h with h
        subst h
        rw [lookupKey_cons] at hm
        rw [lookupKey_cons]
        by_cases hmm : (m0 == m) = true
        · replace hmm := eq_of_beq hmm
          subst hmm
          simp only [beq_self_eq_true, if_true] at hm ⊢
          injection hm with hm
          subst hm
          exact ⟨sheet0, h1, rfl⟩
        · simp only [hmm, if_false] at hm ⊢
          exact ih rest2 ds h2 hm

theorem getTimesheetMap_ok_lookup (timesheet : Option TimesheetYears)
    (adjacentGld : List GitLogDates) (y : ℤ) :
    ∀ (gld : GitLogDates) (out : TimesheetYears) (months : List (ℕ × List ℕ)),
      getTimesheetMapFromDateHashmap gld timesheet adjacentGld = .ok out →
      lookupKey gld y = some months →
      ∃ monthMap, buildMonths y timesheet adjacentGld months = .ok monthMap ∧
        lookupKey out y = some monthMap := by
  intro gld
  induction gld with
  | nil => intro out months _ hy; simp [lookupKey] at hy
  | cons head rest ih =>
    obtain ⟨y0, months0⟩ := head
    intro out months h hy
    simp only [getTimesheetMapFromDateHashmap] at h
    cases h1 : buildMonths y0 timesheet adjacentGld months0 with
    | error e => rw [h1] at h; cases h
    | ok monthMap0 =>
      rw [h1] at h
      cases h2 : getTimesheetMapFromDateHashmap rest timesheet adjacentGld with
      | error e => rw [h2] at h; cases h
      | ok rest2 =>
        rw [h2] at h
        injection h with h
        subst h
        rw [lookupKey_cons] at hy
        rw [lookupKey_cons]
        by_cases hyy : (y0 == y) = true
        · replace hyy := eq_of_beq hyy
          subst hyy
          simp only [beq_self_eq_true, if_true] at hy ⊢
          injection hy with hy
          subst hy
          exact ⟨monthMap0, h1, rfl⟩
        · simp only [hyy, if_false] at hy ⊢
          exact ih rest2 months h2 hy

theorem buildMonths_none_ok (y : ℤ) (adjacentGld : List GitLogDates) :
    ∀ (months : List (ℕ × List ℕ)),
      ∃ out, buildMonths y none adjacentGld months = .ok out := by
  intro months
  induction months with
  | nil => exact ⟨[], rfl⟩
  | cons head rest ih =>
    obtain ⟨m0, ds0⟩ := head
    obtain ⟨out, hout⟩ := ih
    obtain ⟨sheet, hsheet⟩ := parseDaysFrom_none_ok y m0 ds0
      (getAdjacentGitLogDaysForMonth adjacentGld y m0) (getDaysFromMonth y m0) 1
    refine ⟨(m0, sheet) :: out, ?_⟩
    simp only [buildMonths, parseHoursFromDate, hsheet, hout]

theorem getTimesheetMap_none_ok (adjacentGld : List GitLogDates) :
    ∀ (gld : GitLogDates),
      ∃ out, getTimesheetMapFromDateHashmap gld none adjacentGld = .ok out := by
  intro gld
  induction gld with
  | nil => exact ⟨[], rfl⟩
  | cons head rest ih =>
    obtain ⟨y0, months0⟩ := head
    obtain ⟨out, hout⟩ := ih
    obtain ⟨monthMap, hmm⟩ := buildMonths_none_ok y0 adjacentGld months0
    refine ⟨(y0, monthMap) :: out, ?_⟩
    simp only [getTimesheetMapFromDateHashmap, hmm, hout]

/-- The allocation formula written with `k = 1 + count` (the source
computes `count + 1`). -/
theorem returnWorkedHours_formula (workedDays : List ℕ) (day : ℕ)
    (adjacent : List (List ℕ)) :
    returnWorkedHoursFromWorkedDays workedDays day adjacent =
      if workedDays.contains day then
        8 / (1 + ((adjacent.filter (fun s => s.contains day)).length : ℚ))
      else 0 := by
  have hcast : ((((adjacent.filter (fun s => s.contains day)).length + 1 : ℕ)) : ℚ) =
      1 + ((adjacent.filter (fun s => s.contains day)).length : ℚ) := by
    push_cast
    ring
  simp only [returnWorkedHoursFromWorkedDays, hcast]

/-- C1: for every repository, every (year, month) in its worked-day
index, and every day `d` from 1 to the number of days in that month, the
allocated (non-user-edited) hours are 0 when `d` is not in the
repository's worked-day set, and `8 / k` when it is, where `k` is 1 plus
the number of adjacent repositories' worked-day sets for that
(year, month) that also contain `d`; the right-hand side mentions no
weekend information, and the weekend flag is the pure calendar function,
so weekend status never gates the allocation. -/
theorem allocated_hours_fair_split (y : ℤ) (m d : ℕ) (gld : GitLogDates)
    (adjacentGld : List GitLogDates) (months : List (ℕ × List ℕ)) (ds : List ℕ)
    (out : TimesheetYears) (monthMap : List (ℕ × MonthSheet)) (sheet : MonthSheet)
    (hy : lookupKey gld y = some months)
    (hm : lookupKey months m = some ds)
    (hrun : getTimesheetMapFromDateHashmap gld none adjacentGld = .ok out)
    (hy2 : lookupKey out y = some monthMap)
    (hm2 : lookupKey monthMap m = some sheet)
    (hd1 : 1 ≤ d) (hd2 : d ≤ getDaysFromMonth y m) :
    sheet.get? (d - 1) = some
      { weekend := isWeekendDay y m d
        hours :=
          if ds.contains d then
            8 / (1 + (((getAdjacentGitLogDaysForMonth adjacentGld y m).filter
              (fun s => s.contains d)).length : ℚ))
          else 0
        userEdited := false } := by
  obtain ⟨monthMap0, hbm, hlk⟩ := getTimesheetMap_ok_lookup none adjacentGld y gld out months hrun hy
  rw [hlk] at hy2
  injection hy2 with hy2
  subst hy2
  obtain ⟨sheet0, hph, hlk2⟩ := buildMonths_ok_lookup y none adjacentGld m months monthMap0 ds hbm hm
  rw [hlk2] at hm2
  injection hm2 with hm2
  subst hm2
  obtain ⟨e, he, hg⟩ := parseDaysFrom_ok_get y m ds none
    (getAdjacentGitLogDaysForMonth adjacentGld y m) (getDaysFromMonth y m) 1 (d - 1) sheet0 hph (by omega)
  rw [show 1 + (d - 1) = d by omega] at he
  simp only [parseOneDay] at he
  injection he with he
  rw [hg, ← he, returnWorkedHours_formula]

theorem allocated_hours_fair_split_witness :
    c1Sheet.get? (3 - 1) = some
      { weekend := isWeekendDay 2021 2 3
        hours :=
          if List.contains [1, 2, 3] 3 then
            8 / (1 + (((getAdjacentGitLogDaysForMonth c1Adj 2021 2).filter
              (fun s => s.contains 3)).length : ℚ))
          else 0
        userEdited := false } :=
  allocated_hours_fair_split 2021 2 3 c1Gld c1Adj [(2, [1, 2, 3])] [1, 2, 3]
    c1Out c1MonthMap c1Sheet rfl rfl rfl rfl rfl (by decide) (by decide)

/-- C2: when a prior month sheet exists for the repository and the
(year, month) being recomputed, the emitted entry for day `d` copies the
prior entry at index `d - 1` verbatim (hours unchanged, `user_edited`
kept true) exactly when that prior entry is flagged user-edited — no
matter what the repository's or the adjacent repositories' current
worked-day sets are — and otherwise (the only other path) takes the
allocation. -/
theorem user_edited_hours_preserved (y : ℤ) (m d : ℕ) (gld : GitLogDates)
    (adjacentGld : List GitLogDates) (months : List (ℕ × List ℕ)) (ds : List ℕ)
    (prior : TimesheetYears) (priorMonths : List (ℕ × MonthSheet)) (pl : MonthSheet)
    (out : TimesheetYears) (monthMap : List (ℕ × MonthSheet)) (sheet : MonthSheet)
    (pe : DayEntry)
    (hy : lookupKey gld y = some months)
    (hm : lookupKey months m = some ds)
    (hpy : lookupKey prior y = some priorMonths)
    (hpm : lookupKey priorMonths m = some pl)
    (hrun : getTimesheetMapFromDateHashmap gld (some prior) adjacentGld = .ok out)
    (hy2 : lookupKey out y = some monthMap)
    (hm2 : lookupKey monthMap m = some sheet)
    (hd1 : 1 ≤ d) (hd2 : d ≤ getDaysFromMonth y m)
    (hpe : pl.get? (d - 1) = some pe) :
    sheet.get? (d - 1) = some
      (if pe.userEdited then
        { weekend := isWeekendDay y m d, hours := pe.hours, userEdited := true }
      else
        { weekend := isWeekendDay y m d
          hours := returnWorkedHoursFromWorkedDays ds d
            (getAdjacentGitLogDaysForMonth adjacentGld y m)
          userEdited := false }) := by
  obtain ⟨monthMap0, hbm, hlk⟩ := getTimesheetMap_ok_lookup (some prior) adjacentGld y gld out months hrun hy
  rw [hlk] at hy2
  injection hy2 with hy2
  subst hy2
  obtain ⟨sheet0, hph, hlk2⟩ := buildMonths_ok_lookup y (some prior) adjacentGld m months monthMap0 ds hbm hm
  rw [hlk2] at hm2
  injection hm2 with hm2
  subst hm2
  obtain ⟨e, he, hg⟩ := parseDaysFrom_ok_get y m ds (some prior)
    (getAdjacentGitLogDaysForMonth adjacentGld y m) (getDaysFromMonth y m) 1 (d - 1) sheet0 hph (by omega)
  rw [show 1 + (d - 1) = d by omega] at he
  simp only [parseOneDay, getTimesheetEntry, hpy, hpm, hpe] at he
  rw [hg]
  cases hu : pe.userEdited with
  | false =>
    rw [hu, if_pos rfl] at he
    injection he with he2
    rw [if_neg (by decide : ¬ (false = true)), ← he2]
  | true =>
    rw [hu, if_neg (by decide : ¬ (true = false))] at he
    injection he with he2
    rw [if_pos rfl, ← he2]

theorem user_edited_hours_preserved_witness :
    c2Sheet.get? (3 - 1) = some
      (if (⟨false, 5, true⟩ : DayEntry).userEdited then
        { weekend := isWeekendDay 2021 2 3
          hours := (⟨false, 5, true⟩ : DayEntry).hours, userEdited := true }
      else
        { weekend := isWeekendDay 2021 2 3
          hours := returnWorkedHoursFromWorkedDays [1, 2, 3] 3
            (getAdjacentGitLogDaysForMonth c1Adj 2021 2)
          userEdited := false }) :=
  user_edited_hours_preserved 2021 2 3 c1Gld c1Adj [(2, [1, 2, 3])] [1, 2, 3]
    c2Prior [(2, List.replicate 28 ⟨false, 5, true⟩)] (List.replicate 28 ⟨false, 5, true⟩)
    c2Out c2MonthMap c2Sheet ⟨false, 5, true⟩
    rfl rfl rfl rfl rfl rfl rfl (by decide) (by decide) (by decide)

/-- C5 (code evaluated at the failing input): a log text with zero date
matches does NOT surface a "no history" error — the parse step stores
`Some` of an empty worked-day index and an empty-but-valid timesheet, and
for a fresh repository the parse step can never return an error at all,
because `set_git_log_dates` always stores `Some` before the `None` check. -/
theorem zero_matches_yields_empty_ok :
    parseGitLogDatesFromGitHistory ⟨none, none⟩ [] = .ok ⟨some [], some []⟩ ∧
    ∀ dateMatches : List (ℤ × ℕ × ℕ),
      ∃ r, parseGitLogDatesFromGitHistory ⟨none, none⟩ dateMatches = .ok r := by
  constructor
  · rfl
  · intro dateMatches
    obtain ⟨out, hout⟩ := getTimesheetMap_none_ok [] (buildGitLogDates dateMatches)
    exact ⟨⟨some (buildGitLogDates dateMatches), some out⟩, by
      simp only [parseGitLogDatesFromGitHistory, hout]⟩

/-- C6: for every (year, month) present in the worked-day index, the
produced month sheet has exactly one entry per true calendar day of that
(year, month) — the textbook Gregorian count, so 29 entries for February
2024 and 28 for February 1989 — and index 0 holds day 1's entry. -/
theorem month_sheet_length_correct (y : ℤ) (m : ℕ) (gld : GitLogDates)
    (adjacentGld : List GitLogDates) (months : List (ℕ × List ℕ)) (ds : List ℕ)
    (out : TimesheetYears) (monthMap : List (ℕ × MonthSheet)) (sheet : MonthSheet)
    (hy : lookupKey gld y = some months)
    (hm : lookupKey months m = some ds)
    (hrun : getTimesheetMapFromDateHashmap gld none adjacentGld = .ok out)
    (hy2 : lookupKey out y = some monthMap)
    (hm2 : lookupKey monthMap m = some sheet)
    (h1 : 1 ≤ m) (h2 : m ≤ 12) :
    sheet.length = daysInMonthSpec y m ∧
    daysInMonthSpec 2024 2 = 29 ∧
    daysInMonthSpec 1989 2 = 28 ∧
    sheet.get? 0 = some
      { weekend := isWeekendDay y m 1
        hours := returnWorkedHoursFromWorkedDays ds 1
          (getAdjacentGitLogDaysForMonth adjacentGld y m)
        userEdited := false } := by
  obtain ⟨monthMap0, hbm, hlk⟩ := getTimesheetMap_ok_lookup none adjacentGld y gld out months hrun hy
  rw [hlk] at hy2
  injection hy2 with hy2
  subst hy2
  obtain ⟨sheet0, hph, hlk2⟩ := buildMonths_ok_lookup y none adjacentGld m months monthMap0 ds hbm hm
  rw [hlk2] at hm2
  injection hm2 with hm2
  subst hm2
  have hlen := parseDaysFrom_ok_length y m ds none
    (getAdjacentGitLogDaysForMonth adjacentGld y m) (getDaysFromMonth y m) 1 sheet0 hph
  have hspec := getDaysFromMonth_eq_spec y m h1 h2
  have hdays : 1 ≤ getDaysFromMonth y m := by
    rw [hspec]
    simp only [daysInMonthSpec]
    split_ifs <;> omega
  refine ⟨by omega, by decide, by decide, ?_⟩
  obtain ⟨e, he, hg⟩ := parseDaysFrom_ok_get y m ds none
    (getAdjacentGitLogDaysForMonth adjacentGld y m) (getDaysFromMonth y m) 1 0 sheet0 hph (by omega)
  simp only [parseOneDay] at he
  injection he with he
  rw [hg, ← he]

theorem month_sheet_length_correct_witness :
    c1Sheet.length = daysInMonthSpec 2021 2 ∧
    daysInMonthSpec 2024 2 = 29 ∧
    daysInMonthSpec 1989 2 = 28 ∧
    c1Sheet.get? 0 = some
      { weekend := isWeekendDay 2021 2 1
        hours := returnWorkedHoursFromWorkedDays [1, 2, 3] 1
          (getAdjacentGitLogDaysForMonth c1Adj 2021 2)
        userEdited := false } :=
  month_sheet_length_correct 2021 2 c1Gld c1Adj [(2, [1, 2, 3])] [1, 2, 3]
    c1Out c1MonthMap c1Sheet rfl rfl rfl rfl rfl (by decide) (by decide)

theorem length_filter_bne_add {α β : Type} [BEq β] (f : α → β) (b : β) (l : List α) :
    (l.filter (fun a => f a != b)).length +
      (l.filter (fun a => (f a == b))).length = l.length := by
  induction l with
  | nil => rfl
  | cons a t ih =>
    cases hp : (f a == b) <;> simp [List.filter_cons, bne, hp] at ih ⊢ <;> omega

theorem removeRepositoryByNamespace_length (cr : ClientRepositories)
    (namespaceArg : String) :
    ((removeRepositoryByNamespace cr namespaceArg).repositories.getD []).length +
      matchingNamespaceCount cr namespaceArg = (cr.repositories.getD []).length := by
  cases hr : cr.repositories with
  | none => simp [removeRepositoryByNamespace, matchingNamespaceCount, hr]
  | some repos =>
    simp only [removeRepositoryByNamespace, matchingNamespaceCount, hr, Option.map_some,
      Option.getD_some]
    exact length_filter_bne_add (fun r => lowerString (r.namespace_.getD ""))
      (lowerString namespaceArg) repos

theorem filter_length_lt_of_mem_false {α : Type} (p : α → Bool) :
    ∀ (l : List α) (x : α), x ∈ l → p x = false → (l.filter p).length < l.length := by
  intro l
  induction l with
  | nil => intro x hx; cases hx
  | cons a t ih =>
    intro x hx hpx
    have hle := List.length_filter_le p t
    rcases List.mem_cons.mp hx with h | h
    · subst h
      simp only [List.filter_cons, hpx, Bool.false_eq_true, if_false, List.length_cons]
      omega
    · have hlt := ih x h hpx
      cases hpa : p a
      · simp only [List.filter_cons, hpa, Bool.false_eq_true, if_false, List.length_cons]
        omega
      · simp only [List.filter_cons, hpa, eq_self_iff_true, if_true, List.length_cons]
        omega

/-- C3 counterexample: merging an update for the single repository
"autolog" of the already-present client "alphabet" does not replace the
matched repository inside that client's list — `serialize_config`
appends it, so the list grows from one to two entries and still contains
the unreplaced old version, contradicting "replace only the matching
repository". -/
theorem merge_appends_instead_of_replacing :
    serializeConfig (some crAlphabetUpdate) (some [crAlphabet]) =
      .ok [{ requiresApproval := false, approver := none, client := some clientAlphabet,
             user := none, repositories := some [repoAutolog, repoAutologEdited],
             userSignature := none, approverSignature := none }] ∧
    some [repoAutolog, repoAutologEdited] ≠ some [repoAutologEdited] :=
  ⟨rfl, by decide⟩

/-- C3 amended: `Config::update_client_repositories` keeps the document
length and replaces exactly the entries whose client id equals the
record's, leaving the rest unchanged (and appends nothing when no id
matches); `serialize_config` with an existing document keeps the length
when some entry's client name equals the record's exactly
(case-sensitively), rewriting each matched entry with the record's
client/user/approver data and its repository list set to the stored list
with the record's first repository APPENDED (no namespace-based
replacement); when no name matches it appends the record, growing the
document by exactly one. -/
theorem merge_behaviour_amended
    (config : List ClientRepositories) (cr : ClientRepositories)
    (r : Repository) (rs : List Repository)
    (hrepos : cr.repositories = some (r :: rs)) :
    ((updateClientRepositories config cr).length = config.length ∧
      ∀ i entry, config.get? i = some entry →
        (updateClientRepositories config cr).get? i =
          some (if getClientId entry == getClientId cr then cr else entry)) ∧
    ((config.any (fun x => getClientName x == getClientName cr)) = true →
      ∃ out, serializeConfig (some cr) (some config) = .ok out ∧
        out.length = config.length ∧
        ∀ i entry, config.get? i = some entry →
          out.get? i = some (if getClientName entry == getClientName cr then
              { requiresApproval := cr.requiresApproval, approver := cr.approver,
                client := cr.client, user := cr.user,
                repositories := some ((entry.repositories.getD []) ++ [r]),
                userSignature := none, approverSignature := none }
            else entry)) ∧
    ((config.any (fun x => getClientName x == getClientName cr)) = false →
      serializeConfig (some cr) (some config) = .ok (config ++ [cr]) ∧
        (config ++ [cr]).length = config.length + 1) := by
  refine ⟨⟨by simp [updateClientRepositories], ?_⟩, ?_, ?_⟩
  · intro i entry hget
    rw [List.get?_eq_getElem?] at hget
    rw [List.get?_eq_getElem?]
    simp [updateClientRepositories, List.getElem?_map, hget]
  · intro hany
    refine ⟨config.map (fun c =>
        if getClientName c == getClientName cr then
          { requiresApproval := cr.requiresApproval, approver := cr.approver,
            client := cr.client, user := cr.user,
            repositories := some ((c.repositories.getD []) ++ [r]),
            userSignature := none, approverSignature := none }
        else c), ?_, by simp, ?_⟩
    · simp only [serializeConfig, hrepos, hany, eq_self_iff_true, if_true]
    · intro i entry hget
      rw [List.get?_eq_getElem?] at hget
      rw [List.get?_eq_getElem?]
      simp [List.getElem?_map, hget]
  · intro hany
    constructor
    · simp only [serializeConfig, hrepos, hany, Bool.false_eq_true, if_false]
    · simp

theorem merge_behaviour_amended_witness :
    (updateClientRepositories [crAlphabet] crAlphabetUpdate).length =
      [crAlphabet].length :=
  (merge_behaviour_amended [crAlphabet] crAlphabetUpdate repoAutologEdited [] rfl).1.1

/-- C4 counterexample: with repositories "foo" and "FOO" under client
"apple", removing namespace "foo" matches both case-insensitively, so
the repository list shrinks by two — not by exactly one. -/
theorem remove_namespace_shrinks_by_two :
    promptForClientRepoRemoval "apple" (some "foo") [crApple] =
      .ok [{ crApple with repositories := some [] }] ∧
    ((([] : List Repository)).length : ℤ) ≠
      ((([repoFooLower, repoFooUpper] : List Repository)).length : ℤ) - 1 :=
  ⟨rfl, by decide⟩

/-- C4 amended: a removal by namespace acts on the FIRST client whose
name matches case-insensitively and deletes EVERY repository of that
client whose namespace matches case-insensitively (at least one — so
exactly one when no two of its namespaces collide case-insensitively),
leaving every other client entry unchanged; when the matched client has
no matching repository the code reports not-found and the document is
left unchanged (the error is returned before any write); a document with
no matching client passes through the namespace loop unchanged and the
client-removal branch reports not-found on it; removing a client whose
name matches case-insensitively deletes every matching entry. -/
theorem removal_behaviour_amended (clientArg namespaceArg : String) :
    (∀ config : List ClientRepositories,
      (∀ cr2 ∈ config, (lowerString (getClientName cr2) == lowerString clientArg) = false) →
      removeNamespaceFromClients config clientArg namespaceArg = .ok config ∧
      promptForClientRepoRemoval clientArg none config = .error .clientNotFound) ∧
    (∀ (before : List ClientRepositories) (cr : ClientRepositories)
        (after : List ClientRepositories),
      (∀ cr2 ∈ before, (lowerString (getClientName cr2) == lowerString clientArg) = false) →
      (lowerString (getClientName cr) == lowerString clientArg) = true →
      (0 < matchingNamespaceCount cr namespaceArg →
        promptForClientRepoRemoval clientArg (some namespaceArg) (before ++ cr :: after) =
          .ok (before ++ removeRepositoryByNamespace cr namespaceArg :: after) ∧
        ((removeRepositoryByNamespace cr namespaceArg).repositories.getD []).length =
          (cr.repositories.getD []).length - matchingNamespaceCount cr namespaceArg) ∧
      (matchingNamespaceCount cr namespaceArg = 0 →
        promptForClientRepoRemoval clientArg (some namespaceArg) (before ++ cr :: after) =
          .error .repoNotFound)) ∧
    (∀ (config : List ClientRepositories) (cr : ClientRepositories),
      cr ∈ config →
      (lowerString (getClientName cr) == lowerString clientArg) = true →
      promptForClientRepoRemoval clientArg none config =
        .ok (config.filter (fun c => lowerString (getClientName c) != lowerString clientArg))) := by
  have hlen := removeRepositoryByNamespace_length
  refine ⟨?_, ?_, ?_⟩
  · intro config
    have hpass : (∀ cr2 ∈ config,
        (lowerString (getClientName cr2) == lowerString clientArg) = false) →
        removeNamespaceFromClients config clientArg namespaceArg = .ok config := by
      induction config with
      | nil => intro _; rfl
      | cons a t ih =>
        intro hall
        have ha := hall a (by simp)
        simp only [removeNamespaceFromClients, ha, Bool.false_eq_true, if_false,
          ih (fun cr2 hm => hall cr2 (by simp [hm]))]
    intro hall
    refine ⟨hpass hall, ?_⟩
    have hfix : config.filter
        (fun cr => lowerString (getClientName cr) != lowerString clientArg) = config := by
      apply List.filter_eq_self.mpr
      intro a ha
      simp [bne, hall a ha]
    simp only [promptForClientRepoRemoval, hfix, bne_self_eq_false,
      Bool.false_eq_true, if_false]
  · intro before cr after hbefore hmatch
    induction before with
    | nil =>
      have hlenc := hlen cr namespaceArg
      constructor
      · intro hpos
        have hne : (((cr.repositories.getD []).length !=
            ((removeRepositoryByNamespace cr namespaceArg).repositories.getD []).length)) =
              true := by
          simp only [bne_iff_ne]
          omega
        refine ⟨?_, by omega⟩
        simp only [promptForClientRepoRemoval, List.nil_append,
          removeNamespaceFromClients, hmatch, hne, eq_self_iff_true, if_true]
      · intro hzero
        have heq : ((cr.repositories.getD []).length : ℕ) =
            ((removeRepositoryByNamespace cr namespaceArg).repositories.getD []).length := by
          omega
        have hne : (((cr.repositories.getD []).length !=
            ((removeRepositoryByNamespace cr namespaceArg).repositories.getD []).length)) =
              false := by
          rw [heq]
          exact bne_self_eq_false _
        simp only [promptForClientRepoRemoval, List.nil_append,
          removeNamespaceFromClients, hmatch, hne, eq_self_iff_true, if_true,
          Bool.false_eq_true, if_false]
    | cons a t ih =>
      have ha := hbefore a (by simp)
      have hres := ih (fun cr2 hm => hbefore cr2 (by simp [hm]))
      constructor
      · intro hpos
        refine ⟨?_, (hres.1 hpos).2⟩
        have hrec := (hres.1 hpos).1
        simp only [promptForClientRepoRemoval] at hrec ⊢
        simp only [List.cons_append, List.append_eq, removeNamespaceFromClients, ha,
          Bool.false_eq_true, if_false, hrec]
      · intro hzero
        have hrec := hres.2 hzero
        simp only [promptForClientRepoRemoval] at hrec ⊢
        simp only [List.cons_append, List.append_eq, removeNamespaceFromClients, ha,
          Bool.false_eq_true, if_false, hrec]
  · intro config cr hmem hmatch
    have hlt := filter_length_lt_of_mem_false
      (fun c => lowerString (getClientName c) != lowerString clientArg) config cr hmem
      (by simp [bne, hmatch])
    have hne : ((config.length != (config.filter
        (fun c => lowerString (getClientName c) != lowerString clientArg)).length)) = true := by
      simp only [bne_iff_ne]
      omega
    simp only [promptForClientRepoRemoval, hne, eq_self_iff_true, if_true]

theorem removal_behaviour_amended_witness :
    promptForClientRepoRemoval "apple" (some "foo") [crApple] =
      .ok [removeRepositoryByNamespace crApple "foo"] := by
  have h := (removal_behaviour_amended "apple" "foo").2.1 [] crApple []
    (by intro cr2 hm; cases hm) (by decide)
  exact (h.1 (by decide)).1

/-- C9 (code evaluated at the failing input): looking up client name
"Apple" in the two-entry document [apple, google] matches entry 0
case-insensitively, yet the resolver exits with the not-found abort
because the last entry does not match; the same lookup succeeds when the
matching entry happens to be last.  The resolver is therefore not a pure
not-found-free function of (document, key) whenever a match exists. -/
theorem client_lookup_aborts_unless_match_is_last :
    checkForClientOrRepoInBuffer [crApple, crGoogle] none (some "Apple") =
      .error .clientAbort ∧
    lowerString (getClientName crApple) = lowerString "Apple" ∧
    checkForClientOrRepoInBuffer [crGoogle, crApple] none (some "Apple") =
      .ok (none, some crApple) :=
  ⟨rfl, rfl, rfl⟩

/-- C8 (code evaluated at the failing input): editing day 1 of a full
30-entry November 2021 sheet leaves index 0 (day 1) untouched and
writes hours/user_edited into index 1 instead — the source indexes the
month vector with `day`, not `day - 1` — and editing the valid day 30
dies with an out-of-bounds vector access (index 30 of a 30-entry
vector) even though `check_for_valid_day` accepts "30" for November.
The repository's own edit test (config.rs) expects index 0 to change
for day 1. -/
theorem edit_day_writes_wrong_index :
    updateHoursOnMonthDayEntry (some nov2021Timesheet)
        [some "20", some "1", some "11", some "2021"] = .ok editedNov ∧
    editedNovSheet.get? 0 = nov2021Sheet.get? 0 ∧
    editedNovSheet.get? 1 = some ⟨isWeekendDay 2021 11 2, ((20 : ℤ) : ℚ), true⟩ ∧
    (nov2021Sheet.get? 1).map DayEntry.userEdited = some false ∧
    updateHoursOnMonthDayEntry (some nov2021Timesheet)
        [some "20", some "30", some "11", some "2021"] = .error .indexPanic ∧
    checkForValidDay (some "30") 11 2021 = .ok "30" :=
  ⟨rfl, rfl, rfl, rfl, rfl, rfl⟩

/-- C7 counterexample: the edit operation stores the unchecked hour
value 20 — the repository's own test value — so a DayEntry reachable
through the core's operations has hours outside [0, 8]. -/
theorem edit_stores_out_of_range_hours :
    editedNovSheet.get? 1 = some ⟨isWeekendDay 2021 11 2, ((20 : ℤ) : ℚ), true⟩ ∧
    ¬ ((⟨isWeekendDay 2021 11 2, ((20 : ℤ) : ℚ), true⟩ : DayEntry).hours ≤ 8) :=
  ⟨rfl, by norm_num⟩

/-- Bounds of the allocation formula: between 0 and 8 because the
divisor is at least 1. -/
theorem returnWorkedHours_range (workedDays : List ℕ) (day : ℕ)
    (adjacent : List (List ℕ)) :
    0 ≤ returnWorkedHoursFromWorkedDays workedDays day adjacent ∧
    returnWorkedHoursFromWorkedDays workedDays day adjacent ≤ 8 := by
  rw [returnWorkedHours_formula]
  by_cases hc : workedDays.contains day = true
  · rw [if_pos hc]
    have h1 : (0 : ℚ) ≤ ((adjacent.filter (fun s => s.contains day)).length : ℚ) := by
      positivity
    constructor
    · positivity
    · apply div_le_self (by norm_num)
      linarith
  · rw [if_neg hc]
    norm_num

/-- C7 amended: every allocation-path entry satisfies hours ∈ [0, 8]
and carries the pure calendar weekend flag; the carry-forward path
copies the prior hours verbatim (preserving [0, 8] exactly when the
prior entry satisfied it) and also recomputes the weekend flag from the
calendar; the edit path preserves the stored weekend flag rather than
taking it from user input — but stores any parsed hour value without a
range check (see the counterexample). -/
theorem hours_invariant_amended (y : ℤ) (m : ℕ) (workedDays : List ℕ)
    (adjacent : List (List ℕ)) (day : ℕ)
    (timesheet : Option TimesheetYears) (e : DayEntry)
    (h : parseOneDay y m workedDays timesheet adjacent day = .ok e) :
    e.weekend = isWeekendDay y m day ∧
    (e.userEdited = false → 0 ≤ e.hours ∧ e.hours ≤ 8) ∧
    (∀ ts prior, timesheet = some ts →
      getTimesheetEntry ts y m (day - 1) = .ok prior →
      prior.userEdited = true → e.hours = prior.hours) ∧
    editedNovSheet.map DayEntry.weekend = nov2021Sheet.map DayEntry.weekend := by
  have hrange := returnWorkedHours_range workedDays day adjacent
  have hweekend : editedNovSheet.map DayEntry.weekend =
      nov2021Sheet.map DayEntry.weekend := rfl
  cases ht : timesheet with
  | none =>
    rw [ht] at h
    simp only [parseOneDay] at h
    injection h with h
    subst h
    refine ⟨rfl, fun _ => hrange, ?_, hweekend⟩
    intro ts prior hc
    cases hc
  | some ts =>
    rw [ht] at h
    cases hget : getTimesheetEntry ts y m (day - 1) with
    | error err =>
      simp only [parseOneDay, hget] at h
      cases h
    | ok prior =>
      simp only [parseOneDay, hget] at h
      cases hu : prior.userEdited with
      | false =>
        rw [hu, if_pos rfl] at h
        injection h with h
        subst h
        refine ⟨rfl, fun _ => hrange, ?_, hweekend⟩
        intro ts2 prior2 hts2 hget2 hu2
        injection hts2 with hts2
        subst hts2
        rw [hget] at hget2
        injection hget2 with hget2
        subst hget2
        rw [hu] at hu2
        cases hu2
      | true =>
        rw [hu, if_neg (by decide : ¬ (true = false))] at h
        injection h with h
        subst h
        refine ⟨rfl, fun hc => by simp at hc, ?_, hweekend⟩
        intro ts2 prior2 hts2 hget2 hu2
        injection hts2 with hts2
        subst hts2
        rw [hget] at hget2
        injection hget2 with hget2
        subst hget2
        rfl

theorem hours_invariant_amended_witness :
    (⟨isWeekendDay 2021 2 1, returnWorkedHoursFromWorkedDays [1] 1 [], false⟩ :
        DayEntry).weekend = isWeekendDay 2021 2 1 ∧
    ((⟨isWeekendDay 2021 2 1, returnWorkedHoursFromWorkedDays [1] 1 [], false⟩ :
        DayEntry).userEdited = false →
      0 ≤ (⟨isWeekendDay 2021 2 1, returnWorkedHoursFromWorkedDays [1] 1 [], false⟩ :
        DayEntry).hours ∧
      (⟨isWeekendDay 2021 2 1, returnWorkedHoursFromWorkedDays [1] 1 [], false⟩ :
        DayEntry).hours ≤ 8) ∧
    (∀ ts prior, (none : Option TimesheetYears) = some ts →
      getTimesheetEntry ts 2021 2 (1 - 1) = .ok prior →
      prior.userEdited = true →
      (⟨isWeekendDay 2021 2 1, returnWorkedHoursFromWorkedDays [1] 1 [], false⟩ :
        DayEntry).hours = prior.hours) ∧
    editedNovSheet.map DayEntry.weekend = nov2021Sheet.map DayEntry.weekend :=
  hours_invariant_amended 2021 2 [1] [] 1 none
    ⟨isWeekendDay 2021 2 1, returnWorkedHoursFromWorkedDays [1] 1 [], false⟩ rfl

/-- C10: the year validator accepts exactly the four-character strings
(19|20) followed by two digits — so years 1900–2099 only, rejecting the
real calendar year 1898 and accepting 2099 — while the day validator
matches the RAW string (rejecting the zero-padded "07" though day 7 is
valid) and the month validator parses first (accepting "03" as month 3). -/
theorem validators_shape (s : String) :
    (checkForValidYear (some s) = .ok s ↔ yearShapeProp s.data) ∧
    checkForValidYear (some "1898") = .error .yearInvalid ∧
    checkForValidYear (some "3000") = .error .yearInvalid ∧
    checkForValidYear (some "2099") = .ok "2099" ∧
    checkForValidDay (some "07") 3 2021 = .error .dayInvalid ∧
    checkForValidDay (some "7") 3 2021 = .ok "7" ∧
    checkForValidMonth (some "03") = .ok 3 ∧
    checkForValidMonth (some "3") = .ok 3 := by
  refine ⟨?_, by decide, by decide, by decide, by decide, by decide, by decide, by decide⟩
  constructor
  · intro h
    simp only [checkForValidYear] at h
    by_cases hp : matchesYearPattern s = true
    · revert hp
      unfold matchesYearPattern yearShapeProp
      rcases s.data with _ | ⟨c1, _ | ⟨c2, _ | ⟨c3, _ | ⟨c4, _ | ⟨c5, rest⟩⟩⟩⟩⟩ <;>
        simp <;> tauto
    · rw [if_neg hp] at h
      cases h
  · intro hshape
    have hp : matchesYearPattern s = true := by
      revert hshape
      unfold matchesYearPattern yearShapeProp
      rcases s.data with _ | ⟨c1, _ | ⟨c2, _ | ⟨c3, _ | ⟨c4, _ | ⟨c5, rest⟩⟩⟩⟩⟩ <;>
        simp <;> tauto
    simp only [checkForValidYear, hp, if_true]

theorem validators_shape_witness :
    checkForValidYear (some "1998") = .ok "1998" ↔ yearShapeProp "1998".data :=
  (validators_shape "1998").1

end TimesheetGen

